import Mathlib

/-!
Verification of the pixel-manipulation and state-management core of
`src/image_processor.py` (class `ImageProcessorApp`).

Modelling conventions:
* A PIL image is a `Buffer`: fixed width/height, a color mode (RGB or RGBA)
  and a total pixel map `pix : ℤ → ℤ → Pixel`.  Only coordinates inside
  the bounds are meaningful; the code never reads outside them (proved below).
  In RGB mode the `a` component of a `Pixel` is junk that the code cannot
  observe (`convert("RGBA")` overwrites it with 255, as PIL does).
* Python floats are modelled by `ℚ`; `round(x, 2)` is modelled by `round2`,
  round-half-to-even at two decimals, matching Python's documented `round`.
* Python `int(x)` (truncation toward zero) is modelled by `int_trunc`.
* Tk variables and entry widgets: the value a handler parses from its entry
  is passed as an `Option ℚ` argument (`none` models a `ValueError` from
  `float(...)`); label widgets that the handlers write are fields of
  `AppState`.  Purely visual calls (`grid`, cursors, canvas painting) are
  not modelled.
* The two external collaborators used when reprocessing — PIL's Lanczos
  `resize` and the optional AI background remover — are injected as function
  parameters (`resample`, `backend`); every theorem about reprocessing is
  proved for all values of these parameters.
* The flood fill of `flood_fill_transparent` (lines 412-486) is a fuel-based
  breadth-first loop `ffLoop`; the fuel `ffFuel` dominates the loop measure,
  so the loop provably drains its queue.  The state also records, in
  `accesses`, the coordinate of every `pixels[x, y]` read or write, to state
  the out-of-bounds-safety claim.
-/

/-- An RGBA sample; components are the Python ints stored by PIL. -/
structure Pixel where
  r : ℕ
  g : ℕ
  b : ℕ
  a : ℕ
deriving DecidableEq, Repr

/-- PIL color mode of a buffer (only the two modes the core manipulates). -/
inductive Mode where
  | RGB : Mode
  | RGBA : Mode
deriving DecidableEq, Repr

/-- An in-memory raster: fixed dimensions, mode, and per-coordinate samples. -/
structure Buffer where
  width : ℕ
  height : ℕ
  mode : Mode
  pix : ℤ → ℤ → Pixel

/-- Coordinate bounds test, mirroring `x < 0 or x >= img_width or y < 0 or
y >= img_height` at line 459 (negated). -/
def Buffer.inBounds (img : Buffer) (p : ℤ × ℤ) : Prop :=
  0 ≤ p.1 ∧ p.1 < (img.width : ℤ) ∧ 0 ≤ p.2 ∧ p.2 < (img.height : ℤ)

instance (img : Buffer) (p : ℤ × ℤ) : Decidable (img.inBounds p) := by
  unfold Buffer.inBounds
  infer_instance

/-- PIL `convert("RGBA")`: an RGB source gains an opaque alpha channel. -/
def Buffer.convertRGBA (img : Buffer) : Buffer :=
  match img.mode with
  | Mode.RGBA => img
  | Mode.RGB =>
    { img with mode := Mode.RGBA, pix := fun x y => { img.pix x y with a := 255 } }

/-- The in-place write `pixels[x, y] = (r, g, b, 0)` at line 474: the written
pixel keeps the RGB of the pixel currently stored at that coordinate. -/
def Buffer.setTransparent (img : Buffer) (p : ℤ × ℤ) : Buffer :=
  { img with pix := fun x y =>
      if x = p.1 ∧ y = p.2 then
        ⟨(img.pix p.1 p.2).r, (img.pix p.1 p.2).g, (img.pix p.1 p.2).b, 0⟩
      else img.pix x y }

/-- The helper `color_matches` (lines 444-451): independent per-channel
absolute differences, each at most the tolerance; alpha is ignored. -/
def color_matches (tolerance : ℕ) (c1 c2 : Pixel) : Prop :=
  ((c1.r : ℤ) - (c2.r : ℤ)).natAbs ≤ tolerance ∧
  ((c1.g : ℤ) - (c2.g : ℤ)).natAbs ≤ tolerance ∧
  ((c1.b : ℤ) - (c2.b : ℤ)).natAbs ≤ tolerance

instance (tolerance : ℕ) (c1 c2 : Pixel) : Decidable (color_matches tolerance c1 c2) := by
  unfold color_matches
  infer_instance

/-- The four 4-connected neighbors, in the enqueue order of lines 479-482. -/
def neighbors (p : ℤ × ℤ) : List (ℤ × ℤ) :=
  [(p.1 + 1, p.2), (p.1 - 1, p.2), (p.1, p.2 + 1), (p.1, p.2 - 1)]

/-- 4-adjacency: `q` is one of the four neighbors of `p`. -/
def adjacent (p q : ℤ × ℤ) : Prop :=
  q ∈ neighbors p

/-- A pixel the flood fill will change: in bounds, not already transparent,
and within tolerance of the target color. -/
def goodPix (img : Buffer) (tolerance : ℕ) (tc : Pixel) (p : ℤ × ℤ) : Prop :=
  img.inBounds p ∧ (img.pix p.1 p.2).a ≠ 0 ∧ color_matches tolerance (img.pix p.1 p.2) tc

instance (img : Buffer) (tolerance : ℕ) (tc : Pixel) (p : ℤ × ℤ) :
    Decidable (goodPix img tolerance tc p) := by
  unfold goodPix
  infer_instance

/-- The 4-connected region reachable from the seed through pixels that match
the target color and are not already transparent (all relative to the buffer
as it is when the fill starts). -/
inductive InRegion (img : Buffer) (tolerance : ℕ) (tc : Pixel) (seed : ℤ × ℤ) :
    ℤ × ℤ → Prop where
  | start : goodPix img tolerance tc seed → InRegion img tolerance tc seed seed
  | step {p q : ℤ × ℤ} : InRegion img tolerance tc seed p → adjacent p q →
      goodPix img tolerance tc q → InRegion img tolerance tc seed q

/-- State of the breadth-first loop of lines 439-482.  `accesses` records the
coordinate of every `pixels[x, y]` read (the write at line 474 hits the same
coordinate that was just read). -/
structure FFState where
  img : Buffer
  visited : Finset (ℤ × ℤ)
  queue : List (ℤ × ℤ)
  changed : ℕ
  accesses : List (ℤ × ℤ)

/-- One iteration of the `while queue` body (lines 453-482) for the dequeued
coordinate `p`, `rest` being the remainder of the deque. -/
def ffProcess (tolerance : ℕ) (tc : Pixel) (s : FFState) (p : ℤ × ℤ)
    (rest : List (ℤ × ℤ)) : FFState :=
  if p ∈ s.visited then
    { s with queue := rest }
  else if ¬ s.img.inBounds p then
    { s with queue := rest }
  else if (s.img.pix p.1 p.2).a = 0 then
    { s with queue := rest, visited := insert p s.visited,
             accesses := s.accesses ++ [p] }
  else if ¬ color_matches tolerance (s.img.pix p.1 p.2) tc then
    { s with queue := rest, visited := insert p s.visited,
             accesses := s.accesses ++ [p] }
  else
    { img := s.img.setTransparent p,
      visited := insert p s.visited,
      queue := rest ++ neighbors p,
      changed := s.changed + 1,
      accesses := s.accesses ++ [p] }

/-- The `while queue:` loop, with explicit fuel (the Python loop terminates;
`ffFuel` below is enough fuel, which is proved, not assumed). -/
def ffLoop (tolerance : ℕ) (tc : Pixel) : ℕ → FFState → FFState
  | 0, s => s
  | fuel + 1, s =>
    match s.queue with
    | [] => s
    | p :: rest => ffLoop tolerance tc fuel (ffProcess tolerance tc s p rest)

/-- Fuel that dominates the loop measure `5·(unvisited in-bounds pixels) +
queue length` for the initial state. -/
def ffFuel (img : Buffer) : ℕ :=
  5 * (img.width * img.height) + 1

/-- Initial loop state: empty visited set, the seed queued (line 441), zero
changed pixels; the seed is recorded as accessed because line 428 reads
`pixels[start_x, start_y]` for the target color before the loop. -/
def floodFillInit (img : Buffer) (seed : ℤ × ℤ) : FFState :=
  { img := img, visited := ∅, queue := [seed], changed := 0, accesses := [seed] }

/-- The complete breadth-first fill of lines 428-482 on an RGBA buffer:
target color read at the seed, then the loop. -/
def floodFill (img : Buffer) (seed : ℤ × ℤ) (tolerance : ℕ) : FFState :=
  ffLoop tolerance (img.pix seed.1 seed.2) (ffFuel img) (floodFillInit img seed)

/-- Loop measure: strictly decreases at every iteration. -/
def ffMeasure (img0 : Buffer) (s : FFState) : ℕ :=
  5 * (img0.width * img0.height - s.visited.card) + s.queue.length

/-- All in-bounds coordinates of a buffer, as a finite set. -/
def allCoords (img : Buffer) : Finset (ℤ × ℤ) :=
  Finset.Icc 0 ((img.width : ℤ) - 1) ×ˢ Finset.Icc 0 ((img.height : ℤ) - 1)

/-- The method `remove_white_background` (lines 765-785): convert to RGBA,
then map every pixel with all three channels at or above the threshold to
fully transparent white, leaving every other pixel as it is. -/
def remove_white_background (threshold : ℕ) (img0 : Buffer) : Buffer :=
  let img := img0.convertRGBA
  { img with pix := fun x y =>
      if threshold ≤ (img.pix x y).r ∧ threshold ≤ (img.pix x y).g ∧
          threshold ≤ (img.pix x y).b then
        ⟨255, 255, 255, 0⟩
      else img.pix x y }

/-- Python `round` to an integer: round-half-to-even (banker's rounding). -/
def roundHalfEven (q : ℚ) : ℤ :=
  if q - (⌊q⌋ : ℚ) < 1 / 2 then ⌊q⌋
  else if (1 : ℚ) / 2 < q - (⌊q⌋ : ℚ) then ⌊q⌋ + 1
  else if ⌊q⌋ % 2 = 0 then ⌊q⌋ else ⌊q⌋ + 1

/-- Python `round(x, 2)`: round-half-to-even at two decimal places. -/
def round2 (q : ℚ) : ℚ :=
  (roundHalfEven (100 * q) : ℚ) / 100

/-- Python `int(x)`: truncation toward zero. -/
def int_trunc (q : ℚ) : ℤ :=
  if q < 0 then ⌈q⌉ else ⌊q⌋

/-- Background-removal method radio value (`self.bg_removal_method`). -/
inductive Method where
  | ai : Method
  | threshold : Method
deriving DecidableEq, Repr

/-- Messages written to `self.status_label` by the modelled operations. -/
inductive Status where
  | idle : Status
  | removed : ℕ → Status
  | alreadyTransparent : Status
  | undoSuccessful : Status
deriving DecidableEq, Repr

/-- The mutable state of `ImageProcessorApp` that the specified core reads or
writes.  Label fields model the text shown in the corresponding label widget
(as a number); entry-widget text is not stored — the value each handler
parses from its entry arrives as the handler's argument. -/
structure AppState where
  original : Option Buffer
  processed : Option Buffer
  bg_removed_cache : Option Buffer
  edit_history : List Buffer
  magic_wand_tolerance : ℕ
  scale_factor : ℚ
  white_threshold : ℕ
  remove_background : Bool
  bg_removal_method : Method
  width_inches : ℚ
  height_inches : ℚ
  dpi : ℕ
  lock_aspect : Bool
  updating_dimensions : Bool
  processing : Bool
  status : Status
  threshold_label : ℕ
  scale_label : ℚ
  tolerance_label : ℕ

/-- The capacity `self.max_history`. -/
def max_history : ℕ := 20

/-- Body of `save_edit_state` (lines 385-393) acting on the history list:
`pop(0)` when at capacity, then `append` a deep copy of the live buffer
(deep copies are values here, so the appended entry is the buffer's value). -/
def push_snapshot (h : List Buffer) (img : Buffer) : List Buffer :=
  (if max_history ≤ h.length then h.drop 1 else h) ++ [img]

/-- The method `save_edit_state` (lines 385-393). -/
def save_edit_state (st : AppState) : AppState :=
  match st.processed with
  | none => st
  | some img => { st with edit_history := push_snapshot st.edit_history img }

/-- The method `undo_edit` (lines 404-410): `list.pop()` returns and removes
the most recent snapshot, which becomes the live buffer. -/
def undo_edit (st : AppState) : AppState :=
  match st.edit_history.getLast? with
  | none => st
  | some img =>
    { st with processed := some img,
              edit_history := st.edit_history.dropLast,
              status := Status.undoSuccessful }

/-- The method `flood_fill_transparent` (lines 412-486): save an undo
snapshot, coerce the live buffer to RGBA, read the target color at the seed;
if the seed is already transparent, pop the just-saved snapshot and report;
otherwise run the breadth-first fill and report the changed count. -/
def flood_fill_transparent (st : AppState) (sx sy : ℤ) : AppState :=
  match st.processed with
  | none => st
  | some img0 =>
    let st1 := save_edit_state st
    let img := img0.convertRGBA
    let st2 := { st1 with processed := some img }
    if img.mode = Mode.RGBA ∧ (img.pix sx sy).a = 0 then
      { st2 with edit_history := st2.edit_history.dropLast,
                 status := Status.alreadyTransparent }
    else
      let res := floodFill img (sx, sy) st.magic_wand_tolerance
      { st2 with processed := some res.img, status := Status.removed res.changed }

/-- The method `update_dimensions_from_scale` (lines 633-651). -/
def update_dimensions_from_scale (st : AppState) : AppState :=
  match st.original with
  | none => st
  | some o =>
    if st.updating_dimensions then st
    else
      { st with
        width_inches := round2 (((o.width : ℚ) * st.scale_factor) / (st.dpi : ℚ)),
        height_inches := round2 (((o.height : ℚ) * st.scale_factor) / (st.dpi : ℚ)) }

/-- The handler `on_scale_entry` (lines 619-631): a `ValueError` (`none`) is
swallowed; a numeric value is clamped to [0.1, 20] and applied. -/
def on_scale_entry (st : AppState) (input : Option ℚ) : AppState :=
  match input with
  | none => st
  | some v =>
    let scale := if v < 1 / 10 then (1 : ℚ) / 10 else if 20 < v then 20 else v
    update_dimensions_from_scale { st with scale_factor := scale, scale_label := scale }

/-- The handler `on_width_change` (lines 658-691).  `input` is the parse of
the width entry; non-numeric (`none`) and non-positive values are rejected
without mutation. -/
def on_width_change (st : AppState) (input : Option ℚ) : AppState :=
  if st.updating_dimensions then st
  else
    match st.original with
    | none => st
    | some o =>
      match input with
      | none => st
      | some w =>
        if w ≤ 0 then st
        else
          let stw := { st with width_inches := w }
          let sth :=
            if st.lock_aspect then
              { stw with height_inches := round2 (w * ((o.height : ℚ) / (o.width : ℚ))) }
            else stw
          let ns := round2 ((w * (st.dpi : ℚ)) / (o.width : ℚ))
          { sth with scale_factor := ns, scale_label := ns }

/-- The handler `on_height_change` (lines 693-726), symmetric to
`on_width_change`. -/
def on_height_change (st : AppState) (input : Option ℚ) : AppState :=
  if st.updating_dimensions then st
  else
    match st.original with
    | none => st
    | some o =>
      match input with
      | none => st
      | some h =>
        if h ≤ 0 then st
        else
          let sth := { st with height_inches := h }
          let stw :=
            if st.lock_aspect then
              { sth with width_inches := round2 (h * ((o.width : ℚ) / (o.height : ℚ))) }
            else sth
          let ns := round2 ((h * (st.dpi : ℚ)) / (o.height : ℚ))
          { stw with scale_factor := ns, scale_label := ns }

/-- The handler `on_threshold_change` (lines 653-656): it only rewrites the
threshold value label. -/
def on_threshold_change (st : AppState) (v : ℕ) : AppState :=
  { st with threshold_label := v }

/-- A threshold-slider movement: Tk writes the bound `IntVar`
`self.white_threshold`, then the slider invokes `on_threshold_change`. -/
def threshold_slider_change (st : AppState) (v : ℕ) : AppState :=
  on_threshold_change { st with white_threshold := v } v

/-- The handler `on_method_change` (lines 545-548) after Tk has written the
bound radio variable: it clears the AI cache (and toggles widget
visibility, which is not modelled). -/
def on_method_change (st : AppState) (m : Method) : AppState :=
  { st with bg_removal_method := m, bg_removed_cache := none }

/-- The method `remove_background_ai` (lines 728-763) with the external
backend injected: a cached result is returned as a copy; otherwise the
backend runs and its result is cached; on backend failure the code falls
back to `remove_white_background`.  Returns the image and the new cache. -/
def remove_background_ai (backend : Buffer → Option Buffer) (threshold : ℕ)
    (cache : Option Buffer) (img : Buffer) : Buffer × Option Buffer :=
  match cache with
  | some c => (c, some c)
  | none =>
    match backend img with
    | some res => (res, some res)
    | none => (remove_white_background threshold img, none)

/-- The method `process_image` (lines 787-811) with PIL's Lanczos `resize`
and the AI backend injected.  Returns the processed buffer and the
(possibly updated) AI cache; `none` only when no image is loaded. -/
def process_image (backend : Buffer → Option Buffer)
    (resample : Buffer → ℕ → ℕ → Buffer) (aiAvailable : Bool)
    (st : AppState) : Option (Buffer × Option Buffer) :=
  match st.original with
  | none => none
  | some orig =>
    let step1 : Buffer × Option Buffer :=
      if st.remove_background then
        if st.bg_removal_method = Method.ai ∧ aiAvailable = true then
          remove_background_ai backend st.white_threshold st.bg_removed_cache orig
        else
          (remove_white_background st.white_threshold orig, st.bg_removed_cache)
      else (orig, st.bg_removed_cache)
    let tw := int_trunc (st.width_inches * (st.dpi : ℚ))
    let th := int_trunc (st.height_inches * (st.dpi : ℚ))
    let img2 := if 0 < tw ∧ 0 < th then resample step1.1 tw.toNat th.toNat else step1.1
    some (img2, step1.2)

/-- The method `update_preview` (lines 813-878), restricted to its state
effect: guard on a loaded image and the in-flight flag, clear the edit
history, recompute the processed buffer via `process_image`. -/
def update_preview (backend : Buffer → Option Buffer)
    (resample : Buffer → ℕ → ℕ → Buffer) (aiAvailable : Bool)
    (st : AppState) : AppState :=
  if st.original.isNone = true then st
  else if st.processing = true then st
  else
    match process_image backend resample aiAvailable st with
    | none => { st with edit_history := [] }
    | some pr =>
      { st with edit_history := [], processed := some pr.1,
                bg_removed_cache := pr.2 }

/-- The handler `on_bg_toggle` (lines 550-552) after Tk has written the bound
checkbox variable: it calls `update_preview`. -/
def on_bg_toggle (backend : Buffer → Option Buffer)
    (resample : Buffer → ℕ → ℕ → Buffer) (aiAvailable : Bool)
    (st : AppState) (v : Bool) : AppState :=
  update_preview backend resample aiAvailable { st with remove_background := v }

/-- Invariant of the breadth-first loop, relative to the buffer `img0` the
fill started from: the live buffer differs from `img0` exactly by zeroed
alpha on the visited matching pixels, the changed counter counts them, they
are all reachable from the seed, the queue only holds the seed or neighbors
of processed matching pixels, processed matching pixels have all their
in-bounds neighbors scheduled or done, and the seed is scheduled or done. -/
structure FFInv (img0 : Buffer) (tolerance : ℕ) (tc : Pixel) (seed : ℤ × ℤ)
    (s : FFState) : Prop where
  width_eq : s.img.width = img0.width
  height_eq : s.img.height = img0.height
  vb : ∀ p ∈ s.visited, img0.inBounds p
  pix_done : ∀ p ∈ s.visited, goodPix img0 tolerance tc p →
    s.img.pix p.1 p.2 =
      ⟨(img0.pix p.1 p.2).r, (img0.pix p.1 p.2).g, (img0.pix p.1 p.2).b, 0⟩
  pix_rest : ∀ p : ℤ × ℤ, ¬ (p ∈ s.visited ∧ goodPix img0 tolerance tc p) →
    s.img.pix p.1 p.2 = img0.pix p.1 p.2
  count : s.changed = (s.visited.filter (fun p => goodPix img0 tolerance tc p)).card
  sound : ∀ p ∈ s.visited, goodPix img0 tolerance tc p →
    InRegion img0 tolerance tc seed p
  qinv : ∀ q ∈ s.queue,
    q = seed ∨ ∃ p ∈ s.visited, goodPix img0 tolerance tc p ∧ adjacent p q
  closed : ∀ p ∈ s.visited, goodPix img0 tolerance tc p →
    ∀ q, adjacent p q → img0.inBounds q → q ∈ s.visited ∨ q ∈ s.queue
  seedin : seed ∈ s.visited ∨ seed ∈ s.queue

/-- Test fixture: a 1-by-1 RGBA buffer holding one pixel of the given color,
numbered so distinct snapshots are distinguishable. -/
def onePix (r g b a : ℕ) : Buffer :=
  { width := 1, height := 1, mode := Mode.RGBA, pix := fun _ _ => ⟨r, g, b, a⟩ }

/-- Test fixture: a 2-by-1 RGBA buffer, mid gray at (0,0), light gray at
(1,0), both opaque. -/
def twoPix : Buffer :=
  { width := 2, height := 1, mode := Mode.RGBA,
    pix := fun x y => if x = 0 ∧ y = 0 then ⟨100, 100, 100, 255⟩ else ⟨200, 200, 200, 255⟩ }

/-- Test fixture: a 2-by-1 RGB buffer with a near-white and a dark pixel
(the stored alpha component is junk that RGB mode cannot observe). -/
def twoPixRGB : Buffer :=
  { width := 2, height := 1, mode := Mode.RGB,
    pix := fun x y => if x = 0 ∧ y = 0 then ⟨250, 250, 250, 7⟩ else ⟨10, 20, 30, 9⟩ }

/-- Test fixture: an application state with neutral settings and nothing
loaded; concrete states below override the relevant fields. -/
def baseState : AppState :=
  { original := none
    processed := none
    bg_removed_cache := none
    edit_history := []
    magic_wand_tolerance := 32
    scale_factor := 1
    white_threshold := 240
    remove_background := false
    bg_removal_method := Method.threshold
    width_inches := 0
    height_inches := 0
    dpi := 300
    lock_aspect := true
    updating_dimensions := false
    processing := false
    status := Status.idle
    threshold_label := 240
    scale_label := 1
    tolerance_label := 32 }

/-- Concrete state for the flood-fill theorems: `twoPix` is the live
processed buffer. -/
def stFF : AppState :=
  { baseState with processed := some twoPix }

/-- Concrete state for the already-transparent flood fill at full history:
the live buffer's only pixel is transparent and twenty snapshots are held. -/
def stFull : AppState :=
  { baseState with processed := some (onePix 50 60 70 0),
                   edit_history := List.replicate 20 (onePix 1 1 1 255) }

/-- Concrete state with one undo step recorded and a live buffer, used to
show parameter changes do not clear history. -/
def stHist : AppState :=
  { baseState with original := some twoPix,
                   processed := some twoPix,
                   edit_history := [onePix 2 2 2 255] }

/-- Concrete state with a loaded 600x300 original at 300 dpi. -/
def stDim : AppState :=
  { baseState with original := some { width := 600, height := 300,
                                      mode := Mode.RGB, pix := fun _ _ => ⟨0, 0, 0, 255⟩ } }

/-- Concrete state with a loaded 7x5 original at 300 dpi: an image much
narrower than one inch, which breaks the scale round-trip property. -/
def stNarrow : AppState :=
  { baseState with original := some { width := 7, height := 5,
                                      mode := Mode.RGB, pix := fun _ _ => ⟨0, 0, 0, 255⟩ } }

lemma setTransparent_width (img : Buffer) (p : ℤ × ℤ) :
    (img.setTransparent p).width = img.width := rfl

lemma setTransparent_height (img : Buffer) (p : ℤ × ℤ) :
    (img.setTransparent p).height = img.height := rfl

lemma setTransparent_pix_self (img : Buffer) (p : ℤ × ℤ) :
    (img.setTransparent p).pix p.1 p.2 =
      ⟨(img.pix p.1 p.2).r, (img.pix p.1 p.2).g, (img.pix p.1 p.2).b, 0⟩ := by
  simp [Buffer.setTransparent]

lemma setTransparent_pix_ne (img : Buffer) (p q : ℤ × ℤ) (h : q ≠ p) :
    (img.setTransparent p).pix q.1 q.2 = img.pix q.1 q.2 := by
  have hne : ¬ (q.1 = p.1 ∧ q.2 = p.2) := by
    intro hc
    exact h (Prod.ext_iff.mpr hc)
  simp [Buffer.setTransparent, hne]

lemma convertRGBA_of_rgba (img : Buffer) (h : img.mode = Mode.RGBA) :
    img.convertRGBA = img := by
  unfold Buffer.convertRGBA
  rw [h]

lemma convertRGBA_mode (img : Buffer) : (img.convertRGBA).mode = Mode.RGBA := by
  unfold Buffer.convertRGBA
  cases h : img.mode <;> simp [h]

lemma mem_allCoords (img : Buffer) (p : ℤ × ℤ) :
    p ∈ allCoords img ↔ img.inBounds p := by
  unfold allCoords Buffer.inBounds
  rw [Finset.mem_product, Finset.mem_Icc, Finset.mem_Icc]
  omega

lemma card_allCoords (img : Buffer) :
    (allCoords img).card = img.width * img.height := by
  unfold allCoords
  rw [Finset.card_product, Int.card_Icc, Int.card_Icc]
  have h1 : ((img.width : ℤ) - 1 + 1 - 0).toNat = img.width := by omega
  have h2 : ((img.height : ℤ) - 1 + 1 - 0).toNat = img.height := by omega
  rw [h1, h2]

lemma coords_card_le (img0 : Buffer) (V : Finset (ℤ × ℤ))
    (hV : ∀ p ∈ V, img0.inBounds p) : V.card ≤ img0.width * img0.height := by
  have hsub : V ⊆ allCoords img0 := fun p hp => (mem_allCoords img0 p).2 (hV p hp)
  calc V.card ≤ (allCoords img0).card := Finset.card_le_card hsub
    _ = img0.width * img0.height := card_allCoords img0

lemma ffInv_skip (img0 : Buffer) (tolerance : ℕ) (tc : Pixel) (seed p : ℤ × ℤ)
    (rest : List (ℤ × ℤ)) (s : FFState)
    (hseed : img0.inBounds seed)
    (hq : s.queue = p :: rest)
    (hinv : FFInv img0 tolerance tc seed s)
    (hkeep : p ∈ s.visited ∨ ¬ img0.inBounds p) :
    FFInv img0 tolerance tc seed { s with queue := rest } ∧
      ffMeasure img0 { s with queue := rest } < ffMeasure img0 s := by
  have hlen : s.queue.length = rest.length + 1 := by rw [hq]; rfl
  refine ⟨⟨hinv.width_eq, hinv.height_eq, hinv.vb, hinv.pix_done, hinv.pix_rest,
      hinv.count, hinv.sound, ?_, ?_, ?_⟩, ?_⟩
  · intro q hq2
    exact hinv.qinv q (by rw [hq]; exact List.mem_cons_of_mem p hq2)
  · intro pd hpd hgd q hadj hinb
    rcases hinv.closed pd hpd hgd q hadj hinb with h | h
    · exact Or.inl h
    · rw [hq] at h
      rcases List.mem_cons.1 h with h2 | h2
      · rcases hkeep with hk | hk
        · exact Or.inl (by rw [h2]; exact hk)
        · rw [h2] at hinb
          exact absurd hinb hk
      · exact Or.inr h2
  · rcases hinv.seedin with h | h
    · exact Or.inl h
    · rw [hq] at h
      rcases List.mem_cons.1 h with h2 | h2
      · rcases hkeep with hk | hk
        · exact Or.inl (by rw [h2]; exact hk)
        · rw [h2] at hseed
          exact absurd hseed hk
      · exact Or.inr h2
  · have hm : 5 * (img0.width * img0.height - s.visited.card) + rest.length <
        5 * (img0.width * img0.height - s.visited.card) + s.queue.length := by
      omega
    exact hm

lemma ffInv_boundary (img0 : Buffer) (tolerance : ℕ) (tc : Pixel) (seed p : ℤ × ℤ)
    (rest : List (ℤ × ℤ)) (s : FFState)
    (hq : s.queue = p :: rest)
    (hinv : FFInv img0 tolerance tc seed s)
    (hv : p ∉ s.visited)
    (hpin : img0.inBounds p)
    (gnot : ¬ goodPix img0 tolerance tc p) :
    FFInv img0 tolerance tc seed
        { s with queue := rest, visited := insert p s.visited,
                 accesses := s.accesses ++ [p] } ∧
      ffMeasure img0 { s with queue := rest, visited := insert p s.visited,
                              accesses := s.accesses ++ [p] } < ffMeasure img0 s := by
  have hlen : s.queue.length = rest.length + 1 := by rw [hq]; rfl
  have vb2 : ∀ q ∈ insert p s.visited, img0.inBounds q := by
    intro q hqv
    rcases Finset.mem_insert.1 hqv with h | h
    · rw [h]; exact hpin
    · exact hinv.vb q h
  refine ⟨⟨hinv.width_eq, hinv.height_eq, vb2, ?_, ?_, ?_, ?_, ?_, ?_, ?_⟩, ?_⟩
  · intro q hqv hgq
    rcases Finset.mem_insert.1 hqv with h | h
    · rw [h] at hgq
      exact absurd hgq gnot
    · exact hinv.pix_done q h hgq
  · intro q hnq
    refine hinv.pix_rest q ?_
    intro hc
    exact hnq ⟨Finset.mem_insert_of_mem hc.1, hc.2⟩
  · rw [Finset.filter_insert, if_neg gnot]
    exact hinv.count
  · intro q hqv hgq
    rcases Finset.mem_insert.1 hqv with h | h
    · rw [h] at hgq
      exact absurd hgq gnot
    · exact hinv.sound q h hgq
  · intro q hqr
    rcases hinv.qinv q (by rw [hq]; exact List.mem_cons_of_mem p hqr) with h | h
    · exact Or.inl h
    · obtain ⟨pd, hpd, hgd, hadj⟩ := h
      exact Or.inr ⟨pd, Finset.mem_insert_of_mem hpd, hgd, hadj⟩
  · intro pd hpd hgd q hadj hinb
    rcases Finset.mem_insert.1 hpd with h | h
    · rw [h] at hgd
      exact absurd hgd gnot
    · rcases hinv.closed pd h hgd q hadj hinb with h2 | h2
      · exact Or.inl (Finset.mem_insert_of_mem h2)
      · rw [hq] at h2
        rcases List.mem_cons.1 h2 with h3 | h3
        · exact Or.inl (by rw [h3]; exact Finset.mem_insert_self p s.visited)
        · exact Or.inr h3
  · rcases hinv.seedin with h | h
    · exact Or.inl (Finset.mem_insert_of_mem h)
    · rw [hq] at h
      rcases List.mem_cons.1 h with h2 | h2
      · exact Or.inl (by rw [h2]; exact Finset.mem_insert_self p s.visited)
      · exact Or.inr h2
  · have hcard : (insert p s.visited).card = s.visited.card + 1 :=
      Finset.card_insert_of_not_mem hv
    have hle : (insert p s.visited).card ≤ img0.width * img0.height :=
      coords_card_le img0 _ vb2
    have hm : 5 * (img0.width * img0.height - (insert p s.visited).card) + rest.length <
        5 * (img0.width * img0.height - s.visited.card) + s.queue.length := by
      omega
    exact hm

lemma ffInv_match (img0 : Buffer) (tolerance : ℕ) (tc : Pixel) (seed p : ℤ × ℤ)
    (rest : List (ℤ × ℤ)) (s : FFState)
    (hq : s.queue = p :: rest)
    (hinv : FFInv img0 tolerance tc seed s)
    (hv : p ∉ s.visited)
    (hpin : img0.inBounds p)
    (ha2 : (s.img.pix p.1 p.2).a ≠ 0)
    (hm2 : color_matches tolerance (s.img.pix p.1 p.2) tc) :
    FFInv img0 tolerance tc seed
        { img := s.img.setTransparent p, visited := insert p s.visited,
          queue := rest ++ neighbors p, changed := s.changed + 1,
          accesses := s.accesses ++ [p] } ∧
      ffMeasure img0 { img := s.img.setTransparent p, visited := insert p s.visited,
                       queue := rest ++ neighbors p, changed := s.changed + 1,
                       accesses := s.accesses ++ [p] } < ffMeasure img0 s := by
  have hlen : s.queue.length = rest.length + 1 := by rw [hq]; rfl
  have hpeq : s.img.pix p.1 p.2 = img0.pix p.1 p.2 :=
    hinv.pix_rest p (fun hc => hv hc.1)
  have gp : goodPix img0 tolerance tc p := by
    refine ⟨hpin, ?_, ?_⟩
    · rw [← hpeq]; exact ha2
    · rw [← hpeq]; exact hm2
  have vb2 : ∀ q ∈ insert p s.visited, img0.inBounds q := by
    intro q hqv
    rcases Finset.mem_insert.1 hqv with h | h
    · rw [h]; exact hpin
    · exact hinv.vb q h
  refine ⟨⟨?_, ?_, vb2, ?_, ?_, ?_, ?_, ?_, ?_, ?_⟩, ?_⟩
  · rw [setTransparent_width]; exact hinv.width_eq
  · rw [setTransparent_height]; exact hinv.height_eq
  · intro q hqv hgq
    rcases Finset.mem_insert.1 hqv with h | h
    · subst h
      rw [setTransparent_pix_self, hpeq]
    · have hne : q ≠ p := fun hc => hv (hc ▸ h)
      rw [setTransparent_pix_ne s.img p q hne]
      exact hinv.pix_done q h hgq
  · intro q hnq
    have hne : q ≠ p := by
      intro hc
      exact hnq ⟨by rw [hc]; exact Finset.mem_insert_self p s.visited,
                 by rw [hc]; exact gp⟩
    rw [setTransparent_pix_ne s.img p q hne]
    exact hinv.pix_rest q (fun hc => hnq ⟨Finset.mem_insert_of_mem hc.1, hc.2⟩)
  · rw [Finset.filter_insert, if_pos gp,
      Finset.card_insert_of_not_mem (fun hc => hv (Finset.mem_filter.1 hc).1),
      hinv.count]
  · intro q hqv hgq
    rcases Finset.mem_insert.1 hqv with h | h
    · subst h
      rcases hinv.qinv q (by rw [hq]; exact List.mem_cons_self q rest) with h2 | h2
      · subst h2
        exact InRegion.start gp
      · obtain ⟨pd, hpd, hgd, hadj⟩ := h2
        exact InRegion.step (hinv.sound pd hpd hgd) hadj gp
    · exact hinv.sound q h hgq
  · intro q hqm
    rcases List.mem_append.1 hqm with h | h
    · rcases hinv.qinv q (by rw [hq]; exact List.mem_cons_of_mem p h) with h2 | h2
      · exact Or.inl h2
      · obtain ⟨pd, hpd, hgd, hadj⟩ := h2
        exact Or.inr ⟨pd, Finset.mem_insert_of_mem hpd, hgd, hadj⟩
    · exact Or.inr ⟨p, Finset.mem_insert_self p s.visited, gp, h⟩
  · intro pd hpd hgd q hadj hinb
    rcases Finset.mem_insert.1 hpd with h | h
    · subst h
      exact Or.inr (List.mem_append.2 (Or.inr hadj))
    · rcases hinv.closed pd h hgd q hadj hinb with h2 | h2
      · exact Or.inl (Finset.mem_insert_of_mem h2)
      · rw [hq] at h2
        rcases List.mem_cons.1 h2 with h3 | h3
        · exact Or.inl (by rw [h3]; exact Finset.mem_insert_self p s.visited)
        · exact Or.inr (List.mem_append.2 (Or.inl h3))
  · rcases hinv.seedin with h | h
    · exact Or.inl (Finset.mem_insert_of_mem h)
    · rw [hq] at h
      rcases List.mem_cons.1 h with h2 | h2
      · exact Or.inl (by rw [h2]; exact Finset.mem_insert_self p s.visited)
      · exact Or.inr (List.mem_append.2 (Or.inl h2))
  · have hcard : (insert p s.visited).card = s.visited.card + 1 :=
      Finset.card_insert_of_not_mem hv
    have hle : (insert p s.visited).card ≤ img0.width * img0.height :=
      coords_card_le img0 _ vb2
    have hql : (rest ++ neighbors p).length = rest.length + 4 := by
      simp [neighbors]
    have hm : 5 * (img0.width * img0.height - (insert p s.visited).card) +
        (rest ++ neighbors p).length <
        5 * (img0.width * img0.height - s.visited.card) + s.queue.length := by
      omega
    exact hm

lemma ffProcess_inv (img0 : Buffer) (tolerance : ℕ) (tc : Pixel) (seed p : ℤ × ℤ)
    (rest : List (ℤ × ℤ)) (s : FFState)
    (hseed : img0.inBounds seed)
    (hq : s.queue = p :: rest)
    (hinv : FFInv img0 tolerance tc seed s) :
    FFInv img0 tolerance tc seed (ffProcess tolerance tc s p rest) ∧
      ffMeasure img0 (ffProcess tolerance tc s p rest) < ffMeasure img0 s := by
  have hBnd : ∀ q : ℤ × ℤ, s.img.inBounds q ↔ img0.inBounds q := by
    intro q
    unfold Buffer.inBounds
    rw [hinv.width_eq, hinv.height_eq]
  by_cases hv : p ∈ s.visited
  · rw [ffProcess, if_pos hv]
    exact ffInv_skip img0 tolerance tc seed p rest s hseed hq hinv (Or.inl hv)
  · by_cases hb : s.img.inBounds p
    · have hpin : img0.inBounds p := (hBnd p).1 hb
      have hpeq : s.img.pix p.1 p.2 = img0.pix p.1 p.2 :=
        hinv.pix_rest p (fun hc => hv hc.1)
      by_cases ha : (s.img.pix p.1 p.2).a = 0
      · rw [ffProcess, if_neg hv, if_neg (not_not_intro hb), if_pos ha]
        have gnot : ¬ goodPix img0 tolerance tc p := by
          intro hg
          rw [hpeq] at ha
          exact hg.2.1 ha
        exact ffInv_boundary img0 tolerance tc seed p rest s hq hinv hv hpin gnot
      · by_cases hmat : color_matches tolerance (s.img.pix p.1 p.2) tc
        · rw [ffProcess, if_neg hv, if_neg (not_not_intro hb), if_neg ha,
            if_neg (not_not_intro hmat)]
          exact ffInv_match img0 tolerance tc seed p rest s hq hinv hv hpin ha hmat
        · rw [ffProcess, if_neg hv, if_neg (not_not_intro hb), if_neg ha, if_pos hmat]
          have gnot : ¬ goodPix img0 tolerance tc p := by
            intro hg
            have hc := hg.2.2
            rw [← hpeq] at hc
            exact hmat hc
          exact ffInv_boundary img0 tolerance tc seed p rest s hq hinv hv hpin gnot
    · rw [ffProcess, if_neg hv, if_pos hb]
      exact ffInv_skip img0 tolerance tc seed p rest s hseed hq hinv (Or.inr fun hc => hb ((hBnd p).2 hc))

lemma ffLoop_run (img0 : Buffer) (tolerance : ℕ) (tc : Pixel) (seed : ℤ × ℤ)
    (hseed : img0.inBounds seed) :
    ∀ (fuel : ℕ) (s : FFState), FFInv img0 tolerance tc seed s →
      ffMeasure img0 s ≤ fuel →
      FFInv img0 tolerance tc seed (ffLoop tolerance tc fuel s) ∧
        (ffLoop tolerance tc fuel s).queue = [] := by
  intro fuel
  induction fuel with
  | zero =>
    intro s hinv hm
    have hq : s.queue = [] := by
      have hl : s.queue.length = 0 := by
        unfold ffMeasure at hm
        omega
      exact List.length_eq_zero.1 hl
    exact ⟨hinv, hq⟩
  | succ n ih =>
    intro s hinv hm
    cases hq : s.queue with
    | nil =>
      have heq : ffLoop tolerance tc (n + 1) s = s := by
        rw [ffLoop, hq]
      rw [heq]
      exact ⟨hinv, hq⟩
    | cons p rest =>
      have hstep := ffProcess_inv img0 tolerance tc seed p rest s hseed hq hinv
      have heq : ffLoop tolerance tc (n + 1) s =
          ffLoop tolerance tc n (ffProcess tolerance tc s p rest) := by
        rw [ffLoop, hq]
      rw [heq]
      exact ih (ffProcess tolerance tc s p rest) hstep.1 (by omega)

lemma ffInv_complete (img0 : Buffer) (tolerance : ℕ) (tc : Pixel) (seed : ℤ × ℤ)
    (s : FFState) (hinv : FFInv img0 tolerance tc seed s) (hq : s.queue = []) :
    ∀ p, InRegion img0 tolerance tc seed p →
      p ∈ s.visited ∧ goodPix img0 tolerance tc p := by
  intro p hreg
  induction hreg with
  | start hg =>
    rcases hinv.seedin with h | h
    · exact ⟨h, hg⟩
    · rw [hq] at h
      exact absurd h (List.not_mem_nil seed)
  | step hreg0 hadj hg ih =>
    rcases hinv.closed _ ih.1 ih.2 _ hadj hg.1 with h | h
    · exact ⟨h, hg⟩
    · rw [hq] at h
      exact absurd h (List.not_mem_nil _)

lemma ffInv_filter_eq (img0 : Buffer) (tolerance : ℕ) (tc : Pixel) (seed : ℤ × ℤ)
    (s : FFState) (hinv : FFInv img0 tolerance tc seed s) :
    s.visited.filter (fun p => goodPix img0 tolerance tc p) =
      (allCoords img0).filter
        (fun p => (s.img.pix p.1 p.2).a ≠ (img0.pix p.1 p.2).a) := by
  ext p
  simp only [Finset.mem_filter, mem_allCoords]
  constructor
  · rintro ⟨hv, hg⟩
    refine ⟨hg.1, ?_⟩
    rw [hinv.pix_done p hv hg]
    exact Ne.symm hg.2.1
  · rintro ⟨hb2, hne⟩
    by_contra hc
    exact hne (congrArg Pixel.a (hinv.pix_rest p hc))

lemma floodFill_init_inv (img : Buffer) (seed : ℤ × ℤ)
    (tolerance : ℕ) :
    FFInv img tolerance (img.pix seed.1 seed.2) seed (floodFillInit img seed) := by
  refine ⟨rfl, rfl, ?_, ?_, ?_, ?_, ?_, ?_, ?_, ?_⟩
  · intro p hp
    exact absurd hp (Finset.not_mem_empty p)
  · intro p hp
    exact absurd hp (Finset.not_mem_empty p)
  · intro p _
    rfl
  · simp [floodFillInit]
  · intro p hp
    exact absurd hp (Finset.not_mem_empty p)
  · intro q hqm
    have : q = seed := List.mem_singleton.1 hqm
    exact Or.inl this
  · intro p hp
    exact absurd hp (Finset.not_mem_empty p)
  · exact Or.inr (List.mem_singleton_self seed)

lemma floodFill_run (img : Buffer) (seed : ℤ × ℤ) (tolerance : ℕ)
    (hs : img.inBounds seed) :
    FFInv img tolerance (img.pix seed.1 seed.2) seed (floodFill img seed tolerance) ∧
      (floodFill img seed tolerance).queue = [] := by
  have hm0 : ffMeasure img (floodFillInit img seed) ≤ ffFuel img := by
    unfold ffMeasure floodFillInit ffFuel
    simp
  exact ffLoop_run img tolerance (img.pix seed.1 seed.2) seed hs (ffFuel img)
    (floodFillInit img seed) (floodFill_init_inv img seed tolerance) hm0

lemma floodFill_spec (img : Buffer) (seed : ℤ × ℤ) (tolerance : ℕ)
    (hs : img.inBounds seed) :
    (∀ p, InRegion img tolerance (img.pix seed.1 seed.2) seed p →
      (floodFill img seed tolerance).img.pix p.1 p.2 =
        ⟨(img.pix p.1 p.2).r, (img.pix p.1 p.2).g, (img.pix p.1 p.2).b, 0⟩) ∧
    (∀ p, ¬ InRegion img tolerance (img.pix seed.1 seed.2) seed p →
      (floodFill img seed tolerance).img.pix p.1 p.2 = img.pix p.1 p.2) ∧
    (floodFill img seed tolerance).changed =
      ((allCoords img).filter
        (fun p => ((floodFill img seed tolerance).img.pix p.1 p.2).a ≠
          (img.pix p.1 p.2).a)).card := by
  obtain ⟨hinvF, hqF⟩ := floodFill_run img seed tolerance hs
  have hcomp := ffInv_complete img tolerance (img.pix seed.1 seed.2) seed
    (floodFill img seed tolerance) hinvF hqF
  refine ⟨?_, ?_, ?_⟩
  · intro p hp
    have hpv := hcomp p hp
    exact hinvF.pix_done p hpv.1 hpv.2
  · intro p hp
    refine hinvF.pix_rest p ?_
    intro hc
    exact hp (hinvF.sound p hc.1 hc.2)
  · rw [hinvF.count,
      ffInv_filter_eq img tolerance (img.pix seed.1 seed.2) seed
        (floodFill img seed tolerance) hinvF]

lemma ffProcess_img_width (tolerance : ℕ) (tc : Pixel) (s : FFState) (p : ℤ × ℤ)
    (rest : List (ℤ × ℤ)) :
    (ffProcess tolerance tc s p rest).img.width = s.img.width := by
  unfold ffProcess
  split_ifs <;> rfl

lemma ffProcess_img_height (tolerance : ℕ) (tc : Pixel) (s : FFState) (p : ℤ × ℤ)
    (rest : List (ℤ × ℤ)) :
    (ffProcess tolerance tc s p rest).img.height = s.img.height := by
  unfold ffProcess
  split_ifs <;> rfl

lemma ffProcess_accesses (tolerance : ℕ) (tc : Pixel) (s : FFState) (p : ℤ × ℤ)
    (rest : List (ℤ × ℤ)) :
    ∀ q ∈ (ffProcess tolerance tc s p rest).accesses,
      q ∈ s.accesses ∨ (q = p ∧ s.img.inBounds p) := by
  intro q hqm
  by_cases h1 : p ∈ s.visited
  · rw [ffProcess, if_pos h1] at hqm
    exact Or.inl hqm
  · by_cases h2 : s.img.inBounds p
    · by_cases h3 : (s.img.pix p.1 p.2).a = 0
      · rw [ffProcess, if_neg h1, if_neg (not_not_intro h2), if_pos h3] at hqm
        rcases List.mem_append.1 hqm with h | h
        · exact Or.inl h
        · exact Or.inr ⟨List.mem_singleton.1 h, h2⟩
      · by_cases h4 : color_matches tolerance (s.img.pix p.1 p.2) tc
        · rw [ffProcess, if_neg h1, if_neg (not_not_intro h2), if_neg h3,
            if_neg (not_not_intro h4)] at hqm
          rcases List.mem_append.1 hqm with h | h
          · exact Or.inl h
          · exact Or.inr ⟨List.mem_singleton.1 h, h2⟩
        · rw [ffProcess, if_neg h1, if_neg (not_not_intro h2), if_neg h3,
            if_pos h4] at hqm
          rcases List.mem_append.1 hqm with h | h
          · exact Or.inl h
          · exact Or.inr ⟨List.mem_singleton.1 h, h2⟩
    · rw [ffProcess, if_neg h1, if_pos h2] at hqm
      exact Or.inl hqm

lemma ffLoop_accesses (tolerance : ℕ) (tc : Pixel) (W H : ℕ) :
    ∀ (fuel : ℕ) (s : FFState), s.img.width = W → s.img.height = H →
      (∀ p ∈ s.accesses, 0 ≤ p.1 ∧ p.1 < (W : ℤ) ∧ 0 ≤ p.2 ∧ p.2 < (H : ℤ)) →
      ∀ p ∈ (ffLoop tolerance tc fuel s).accesses,
        0 ≤ p.1 ∧ p.1 < (W : ℤ) ∧ 0 ≤ p.2 ∧ p.2 < (H : ℤ) := by
  intro fuel
  induction fuel with
  | zero =>
    intro s hW hH hacc
    exact hacc
  | succ n ih =>
    intro s hW hH hacc
    cases hq : s.queue with
    | nil =>
      have heq : ffLoop tolerance tc (n + 1) s = s := by
        rw [ffLoop, hq]
      rw [heq]
      exact hacc
    | cons p rest =>
      have heq : ffLoop tolerance tc (n + 1) s =
          ffLoop tolerance tc n (ffProcess tolerance tc s p rest) := by
        rw [ffLoop, hq]
      rw [heq]
      refine ih (ffProcess tolerance tc s p rest) ?_ ?_ ?_
      · rw [ffProcess_img_width, hW]
      · rw [ffProcess_img_height, hH]
      · intro q hqm
        rcases ffProcess_accesses tolerance tc s p rest q hqm with h | ⟨hqp, hb⟩
        · exact hacc q h
        · subst hqp
          have hb2 := hb
          unfold Buffer.inBounds at hb2
          rw [hW, hH] at hb2
          exact hb2

lemma floodFill_accesses (img : Buffer) (seed : ℤ × ℤ) (tolerance : ℕ)
    (hs : img.inBounds seed) :
    ∀ p ∈ (floodFill img seed tolerance).accesses, img.inBounds p := by
  intro p hp
  have hinit : ∀ q ∈ (floodFillInit img seed).accesses,
      0 ≤ q.1 ∧ q.1 < (img.width : ℤ) ∧ 0 ≤ q.2 ∧ q.2 < (img.height : ℤ) := by
    intro q hqm
    have hqs : q = seed := List.mem_singleton.1 hqm
    subst hqs
    exact hs
  exact ffLoop_accesses tolerance (img.pix seed.1 seed.2) img.width img.height
    (ffFuel img) (floodFillInit img seed) rfl rfl hinit p hp

lemma roundHalfEven_sub_le (q : ℚ) : |(roundHalfEven q : ℚ) - q| ≤ 1 / 2 := by
  unfold roundHalfEven
  have h1 : ((⌊q⌋ : ℤ) : ℚ) ≤ q := Int.floor_le q
  have h2 : q < ((⌊q⌋ : ℤ) : ℚ) + 1 := Int.lt_floor_add_one q
  split_ifs with ha hb hc
  · rw [abs_le]
    constructor <;> linarith
  · rw [abs_le]
    push_cast
    constructor <;> linarith
  · rw [abs_le]
    constructor <;> linarith
  · rw [abs_le]
    push_cast
    constructor <;> linarith

lemma round2_sub_le (q : ℚ) : |round2 q - q| ≤ 1 / 200 := by
  unfold round2
  have h := roundHalfEven_sub_le (100 * q)
  rw [abs_le] at h ⊢
  constructor <;> linarith [h.1, h.2]

lemma push_snapshot_length_le (h : List Buffer) (img : Buffer)
    (hle : h.length ≤ 20) :
    (push_snapshot h img).length ≤ 20 := by
  unfold push_snapshot max_history
  split_ifs with hc
  · simp
    omega
  · simp
    omega

lemma push_snapshot_getLast (h : List Buffer) (img : Buffer) :
    (push_snapshot h img).getLast? = some img := by
  unfold push_snapshot
  exact List.getLast?_concat _

lemma push_snapshot_dropLast (h : List Buffer) (img : Buffer) :
    (push_snapshot h img).dropLast =
      if 20 ≤ h.length then h.drop 1 else h := by
  unfold push_snapshot max_history
  exact List.dropLast_concat ..

lemma foldl_push_snapshot (l : List Buffer) :
    List.foldl push_snapshot [] l = l.drop (l.length - 20) := by
  induction l using List.reverseRecOn with
  | nil => rfl
  | append_singleton xs x ih =>
    rw [List.foldl_append]
    simp only [List.foldl_cons, List.foldl_nil]
    rw [ih]
    unfold push_snapshot max_history at *
    by_cases h20 : xs.length < 20
    · rw [if_neg (by rw [List.length_drop]; omega)]
      rw [show xs.length - 20 = 0 by omega]
      rw [show (xs ++ [x]).length - 20 = 0 by simp; omega]
      simp
    · rw [if_pos (by rw [List.length_drop]; omega)]
      rw [List.drop_drop]
      rw [show (xs ++ [x]).length - 20 = xs.length + 1 - 20 by simp]
      rw [List.drop_append_of_le_length (by omega)]
      rw [show xs.length - 20 + 1 = xs.length + 1 - 20 by omega]

lemma convertRGBA_width (img : Buffer) : (img.convertRGBA).width = img.width := by
  unfold Buffer.convertRGBA
  cases h : img.mode <;> rfl

lemma convertRGBA_height (img : Buffer) : (img.convertRGBA).height = img.height := by
  unfold Buffer.convertRGBA
  cases h : img.mode <;> rfl

lemma convertRGBA_pix (img : Buffer) (x y : ℤ) :
    (img.convertRGBA.pix x y).r = (img.pix x y).r ∧
    (img.convertRGBA.pix x y).g = (img.pix x y).g ∧
    (img.convertRGBA.pix x y).b = (img.pix x y).b ∧
    (img.convertRGBA.pix x y).a =
      (if img.mode = Mode.RGB then 255 else (img.pix x y).a) := by
  unfold Buffer.convertRGBA
  cases h : img.mode <;> simp [h]

lemma update_dimensions_preserves (st : AppState) :
    (update_dimensions_from_scale st).processed = st.processed ∧
    (update_dimensions_from_scale st).edit_history = st.edit_history ∧
    (update_dimensions_from_scale st).scale_factor = st.scale_factor ∧
    (update_dimensions_from_scale st).dpi = st.dpi := by
  unfold update_dimensions_from_scale
  cases h : st.original with
  | none => exact ⟨rfl, rfl, rfl, rfl⟩
  | some o =>
    split_ifs with h2
    · exact ⟨rfl, rfl, rfl, rfl⟩
    · exact ⟨rfl, rfl, rfl, rfl⟩

/-- C2: for every input buffer and threshold, `remove_white_background`
produces an RGBA buffer of the same dimensions that maps every pixel whose
three channels all reach the threshold to `(255, 255, 255, 0)` and keeps the
RGB of every other pixel, with alpha forced to 255 exactly when the source
had no alpha channel. -/
theorem C2_threshold_segmenter (img : Buffer) (t : ℕ) (x y : ℤ) :
    (remove_white_background t img).mode = Mode.RGBA ∧
    (remove_white_background t img).width = img.width ∧
    (remove_white_background t img).height = img.height ∧
    ((t ≤ (img.pix x y).r ∧ t ≤ (img.pix x y).g ∧ t ≤ (img.pix x y).b) →
      (remove_white_background t img).pix x y = ⟨255, 255, 255, 0⟩) ∧
    (¬ (t ≤ (img.pix x y).r ∧ t ≤ (img.pix x y).g ∧ t ≤ (img.pix x y).b) →
      (remove_white_background t img).pix x y =
        ⟨(img.pix x y).r, (img.pix x y).g, (img.pix x y).b,
          if img.mode = Mode.RGB then 255 else (img.pix x y).a⟩) := by
  obtain ⟨hcr, hcg, hcb, hca⟩ := convertRGBA_pix img x y
  refine ⟨convertRGBA_mode img, convertRGBA_width img, convertRGBA_height img, ?_, ?_⟩
  · intro hcond
    show (if t ≤ (img.convertRGBA.pix x y).r ∧ t ≤ (img.convertRGBA.pix x y).g ∧
        t ≤ (img.convertRGBA.pix x y).b then (⟨255, 255, 255, 0⟩ : Pixel)
      else img.convertRGBA.pix x y) = ⟨255, 255, 255, 0⟩
    rw [hcr, hcg, hcb, if_pos hcond]
  · intro hcond
    show (if t ≤ (img.convertRGBA.pix x y).r ∧ t ≤ (img.convertRGBA.pix x y).g ∧
        t ≤ (img.convertRGBA.pix x y).b then (⟨255, 255, 255, 0⟩ : Pixel)
      else img.convertRGBA.pix x y) = _
    rw [hcr, hcg, hcb, if_neg hcond]
    calc img.convertRGBA.pix x y
        = ⟨(img.convertRGBA.pix x y).r, (img.convertRGBA.pix x y).g,
           (img.convertRGBA.pix x y).b, (img.convertRGBA.pix x y).a⟩ := rfl
      _ = ⟨(img.pix x y).r, (img.pix x y).g, (img.pix x y).b,
           if img.mode = Mode.RGB then 255 else (img.pix x y).a⟩ := by
          rw [hcr, hcg, hcb, hca]

/-- C2 witness: on the concrete 2-by-1 RGB buffer with threshold 240, the
near-white pixel (0,0) becomes transparent white. -/
theorem C2_threshold_segmenter_witness :
    (240 ≤ (twoPixRGB.pix 0 0).r ∧ 240 ≤ (twoPixRGB.pix 0 0).g ∧
      240 ≤ (twoPixRGB.pix 0 0).b) ∧
    (remove_white_background 240 twoPixRGB).pix 0 0 = ⟨255, 255, 255, 0⟩ :=
  ⟨by decide, (C2_threshold_segmenter twoPixRGB 240 0 0).2.2.2.1 (by decide)⟩

/-- C4: the history stack holds at most 20 snapshots: pushing the elements of
any list into an empty stack keeps exactly the last 20, a push onto a full
stack evicts index 0 before appending (so a 21st push drops the first
snapshot ever pushed, not the most recent), and popping returns and removes
the most recently pushed snapshot. -/
theorem C4_history_capacity (l h : List Buffer) (img : Buffer) :
    List.foldl push_snapshot [] l = l.drop (l.length - 20) ∧
    (List.foldl push_snapshot [] l).length ≤ 20 ∧
    (h.length ≤ 20 → (push_snapshot h img).length ≤ 20) ∧
    (h.length = 20 → push_snapshot h img = h.drop 1 ++ [img]) ∧
    (push_snapshot h img).getLast? = some img ∧
    (push_snapshot h img).dropLast = (if 20 ≤ h.length then h.drop 1 else h) ∧
    (l.length = 21 → List.foldl push_snapshot [] l = l.drop 1) := by
  refine ⟨foldl_push_snapshot l, ?_, ?_, ?_, push_snapshot_getLast h img,
    push_snapshot_dropLast h img, ?_⟩
  · rw [foldl_push_snapshot l]
    rw [List.length_drop]
    omega
  · intro hle
    exact push_snapshot_length_le h img hle
  · intro h20
    unfold push_snapshot max_history
    rw [if_pos (by omega)]
  · intro h21
    rw [foldl_push_snapshot l, h21]

/-- C4 witness: pushing 21 snapshots into an empty stack keeps the last 20,
dropping the very first push. -/
theorem C4_history_capacity_witness :
    (List.replicate 21 (onePix 1 1 1 255)).length = 21 ∧
    List.foldl push_snapshot [] (List.replicate 21 (onePix 1 1 1 255)) =
      (List.replicate 21 (onePix 1 1 1 255)).drop 1 ∧
    (List.foldl push_snapshot [] (List.replicate 21 (onePix 1 1 1 255))).length ≤ 20 :=
  ⟨by simp,
   (C4_history_capacity (List.replicate 21 (onePix 1 1 1 255)) [] (onePix 1 1 1 255)).2.2.2.2.2.2
     (by simp),
   (C4_history_capacity (List.replicate 21 (onePix 1 1 1 255)) [] (onePix 1 1 1 255)).2.1⟩

/-- C3 counterexample: on a seed that is already transparent with a full
history of 20 snapshots, the call does not leave the history stack exactly
as it was: `save_edit_state` evicts the oldest snapshot before appending,
and the subsequent `pop()` removes only the appended one, so the stack
shrinks from 20 to 19 entries. -/
theorem C3_full_history_counterexample :
    stFull.edit_history.length = 20 ∧
    (flood_fill_transparent stFull 0 0).status = Status.alreadyTransparent ∧
    (flood_fill_transparent stFull 0 0).edit_history.length = 19 := by
  exact ⟨rfl, rfl, rfl⟩

/-- C3 (amended): a flood fill on an already-transparent seed mutates no
pixel, reports AlreadyTransparent, and leaves the history stack unchanged
whenever the stack held fewer than 20 entries; when it was full, the
push-then-pop pair nets the loss of the oldest entry (the stack becomes its
last 19 entries). -/
theorem C3_already_transparent (st : AppState) (img : Buffer) (sx sy : ℤ)
    (hp : st.processed = some img)
    (ha : ((img.convertRGBA).pix sx sy).a = 0) :
    (flood_fill_transparent st sx sy).processed = st.processed ∧
    (flood_fill_transparent st sx sy).status = Status.alreadyTransparent ∧
    (flood_fill_transparent st sx sy).edit_history =
      (if 20 ≤ st.edit_history.length then st.edit_history.drop 1
       else st.edit_history) ∧
    (st.edit_history.length < 20 →
      (flood_fill_transparent st sx sy).edit_history = st.edit_history) := by
  have hmode : img.mode = Mode.RGBA := by
    cases h : img.mode
    · exfalso
      have h255 : (img.convertRGBA.pix sx sy).a = 255 := by
        unfold Buffer.convertRGBA
        rw [h]
      rw [h255] at ha
      exact absurd ha (by norm_num)
    · rfl
  have hcv : img.convertRGBA = img := convertRGBA_of_rgba img hmode
  rw [hcv] at ha
  have heq : flood_fill_transparent st sx sy =
      { st with processed := some img,
                edit_history := (push_snapshot st.edit_history img).dropLast,
                status := Status.alreadyTransparent } := by
    simp only [flood_fill_transparent, hp, save_edit_state, hcv]
    rw [if_pos ⟨hmode, ha⟩]
  rw [heq]
  refine ⟨hp.symm, rfl, ?_, ?_⟩
  · exact push_snapshot_dropLast st.edit_history img
  · intro hlen
    rw [push_snapshot_dropLast st.edit_history img, if_neg (by omega)]

/-- C3 witness: with an empty starting history, the already-transparent
call leaves the state untouched and signals AlreadyTransparent. -/
theorem C3_already_transparent_witness :
    (((onePix 50 60 70 0).convertRGBA).pix 0 0).a = 0 ∧
    (flood_fill_transparent { baseState with processed := some (onePix 50 60 70 0) } 0 0).processed =
      ({ baseState with processed := some (onePix 50 60 70 0) } : AppState).processed ∧
    (flood_fill_transparent { baseState with processed := some (onePix 50 60 70 0) } 0 0).edit_history =
      ({ baseState with processed := some (onePix 50 60 70 0) } : AppState).edit_history :=
  ⟨by decide,
   (C3_already_transparent { baseState with processed := some (onePix 50 60 70 0) }
     (onePix 50 60 70 0) 0 0 rfl (by decide)).1,
   (C3_already_transparent { baseState with processed := some (onePix 50 60 70 0) }
     (onePix 50 60 70 0) 0 0 rfl (by decide)).2.2.2 (by decide)⟩

/-- C5: a flood fill that actually mutates (seed not already transparent)
first pushes a value snapshot of the live buffer; undo pops it back, so the
processed buffer after push, in-place mutation and pop is pixel-for-pixel
(and in mode) the buffer from before the mutation.  Snapshots are values in
this model, which is exactly what `self.processed_image.copy()` guarantees:
no aliasing with the live buffer. -/
theorem C5_undo_reverses_flood_fill (st : AppState) (img : Buffer) (sx sy : ℤ)
    (hp : st.processed = some img)
    (ha : ((img.convertRGBA).pix sx sy).a ≠ 0) :
    (undo_edit (flood_fill_transparent st sx sy)).processed = some img := by
  have hcond : ¬ (img.convertRGBA.mode = Mode.RGBA ∧
      (img.convertRGBA.pix sx sy).a = 0) := fun hc => ha hc.2
  have heq : flood_fill_transparent st sx sy =
      { st with
        processed := some (floodFill img.convertRGBA (sx, sy)
          st.magic_wand_tolerance).img,
        edit_history := push_snapshot st.edit_history img,
        status := Status.removed (floodFill img.convertRGBA (sx, sy)
          st.magic_wand_tolerance).changed } := by
    simp only [flood_fill_transparent, hp, save_edit_state]
    rw [if_neg hcond]
  rw [heq]
  unfold undo_edit
  simp only [push_snapshot_getLast]

/-- C5 witness: on the concrete two-pixel state, flood fill at (0,0)
followed by undo restores the original buffer. -/
theorem C5_undo_reverses_flood_fill_witness :
    ((twoPix.convertRGBA).pix 0 0).a ≠ 0 ∧
    (undo_edit (flood_fill_transparent stFF 0 0)).processed = some twoPix :=
  ⟨by decide, C5_undo_reverses_flood_fill stFF twoPix 0 0 rfl (by decide)⟩

/-- C7 counterexample: a non-positive numeric value entered in the scale
entry is not rejected: `on_scale_entry` clamps it to 0.1 and applies it,
mutating `scale_factor` away from its previous value 1. -/
theorem C7_scale_entry_clamps_counterexample :
    ((-5 : ℚ) ≤ 0) ∧
    baseState.scale_factor = 1 ∧
    (on_scale_entry baseState (some (-5))).scale_factor = 1 / 10 := by
  refine ⟨by norm_num, rfl, ?_⟩
  simp only [on_scale_entry]
  rw [(update_dimensions_preserves _).2.2.1]
  show (if (-5 : ℚ) < 1 / 10 then (1 : ℚ) / 10
    else if 20 < (-5 : ℚ) then 20 else (-5 : ℚ)) = 1 / 10
  rw [if_pos (by norm_num : (-5 : ℚ) < 1 / 10)]

/-- C7 (amended): the width and height setters reject non-numeric and
non-positive input with no state mutation at all; the scale entry rejects
non-numeric input with no mutation, but clamps numeric input below 0.1 —
including every non-positive value — to 0.1 and applies it. -/
theorem C7_invalid_input_rejected (st : AppState) (v : ℚ) (hv : v ≤ 0) :
    on_width_change st none = st ∧
    on_width_change st (some v) = st ∧
    on_height_change st none = st ∧
    on_height_change st (some v) = st ∧
    on_scale_entry st none = st ∧
    (on_scale_entry st (some v)).scale_factor = 1 / 10 := by
  refine ⟨?_, ?_, ?_, ?_, rfl, ?_⟩
  · unfold on_width_change
    by_cases hud2 : st.updating_dimensions = true
    · rw [if_pos hud2]
    · rw [if_neg hud2]
      cases ho : st.original with
      | none => rfl
      | some o => rfl
  · unfold on_width_change
    by_cases hud2 : st.updating_dimensions = true
    · rw [if_pos hud2]
    · rw [if_neg hud2]
      cases ho : st.original with
      | none => rfl
      | some o =>
        change (if v ≤ 0 then st else _) = st
        rw [if_pos hv]
  · unfold on_height_change
    by_cases hud2 : st.updating_dimensions = true
    · rw [if_pos hud2]
    · rw [if_neg hud2]
      cases ho : st.original with
      | none => rfl
      | some o => rfl
  · unfold on_height_change
    by_cases hud2 : st.updating_dimensions = true
    · rw [if_pos hud2]
    · rw [if_neg hud2]
      cases ho : st.original with
      | none => rfl
      | some o =>
        change (if v ≤ 0 then st else _) = st
        rw [if_pos hv]
  · simp only [on_scale_entry]
    rw [(update_dimensions_preserves _).2.2.1]
    show (if v < 1 / 10 then (1 : ℚ) / 10 else if 20 < v then 20 else v) = 1 / 10
    rw [if_pos (by linarith : v < 1 / 10)]

/-- C7 witness: with input -5 the width setter is a no-op and the scale
entry clamps to 0.1. -/
theorem C7_invalid_input_rejected_witness :
    ((-5 : ℚ) ≤ 0) ∧
    on_width_change baseState none = baseState ∧
    (on_scale_entry baseState (some (-5))).scale_factor = 1 / 10 :=
  ⟨by norm_num, (C7_invalid_input_rejected baseState (-5) (by norm_num)).1,
   (C7_invalid_input_rejected baseState (-5) (by norm_num)).2.2.2.2.2⟩

lemma on_width_change_none (st : AppState) : on_width_change st none = st := by
  unfold on_width_change
  by_cases hud2 : st.updating_dimensions = true
  · rw [if_pos hud2]
  · rw [if_neg hud2]
    cases ho : st.original with
    | none => rfl
    | some o => rfl

lemma on_width_change_nonpos (st : AppState) (v : ℚ) (hv : v ≤ 0) :
    on_width_change st (some v) = st := by
  unfold on_width_change
  by_cases hud2 : st.updating_dimensions = true
  · rw [if_pos hud2]
  · rw [if_neg hud2]
    cases ho : st.original with
    | none => rfl
    | some o =>
      change (if v ≤ 0 then st else _) = st
      rw [if_pos hv]

lemma on_height_change_none (st : AppState) : on_height_change st none = st := by
  unfold on_height_change
  by_cases hud2 : st.updating_dimensions = true
  · rw [if_pos hud2]
  · rw [if_neg hud2]
    cases ho : st.original with
    | none => rfl
    | some o => rfl

lemma on_height_change_nonpos (st : AppState) (v : ℚ) (hv : v ≤ 0) :
    on_height_change st (some v) = st := by
  unfold on_height_change
  by_cases hud2 : st.updating_dimensions = true
  · rw [if_pos hud2]
  · rw [if_neg hud2]
    cases ho : st.original with
    | none => rfl
    | some o =>
      change (if v ≤ 0 then st else _) = st
      rw [if_pos hv]

lemma update_dimensions_from_scale_eq (st : AppState) (o : Buffer)
    (ho : st.original = some o) (hud : st.updating_dimensions = false) :
    update_dimensions_from_scale st =
      { st with
        width_inches := round2 (((o.width : ℚ) * st.scale_factor) / (st.dpi : ℚ)),
        height_inches := round2 (((o.height : ℚ) * st.scale_factor) / (st.dpi : ℚ)) } := by
  unfold update_dimensions_from_scale
  rw [ho]
  change (if st.updating_dimensions = true then _ else _) = _
  rw [if_neg (by simp [hud])]

lemma on_scale_entry_eq (st : AppState) (o : Buffer) (s : ℚ)
    (ho : st.original = some o) (hud : st.updating_dimensions = false)
    (hs1 : ¬ s < 1 / 10) (hs2 : ¬ 20 < s) :
    on_scale_entry st (some s) =
      { st with scale_factor := s, scale_label := s,
                width_inches := round2 (((o.width : ℚ) * s) / (st.dpi : ℚ)),
                height_inches := round2 (((o.height : ℚ) * s) / (st.dpi : ℚ)) } := by
  simp only [on_scale_entry]
  rw [if_neg hs1, if_neg hs2]
  rw [update_dimensions_from_scale_eq { st with scale_factor := s, scale_label := s }
    o ho hud]

lemma on_width_change_eq_lock (st : AppState) (o : Buffer) (w : ℚ)
    (ho : st.original = some o) (hud : st.updating_dimensions = false)
    (hl : st.lock_aspect = true) (hw : 0 < w) :
    on_width_change st (some w) =
      { st with width_inches := w,
                height_inches := round2 (w * ((o.height : ℚ) / (o.width : ℚ))),
                scale_factor := round2 ((w * (st.dpi : ℚ)) / (o.width : ℚ)),
                scale_label := round2 ((w * (st.dpi : ℚ)) / (o.width : ℚ)) } := by
  unfold on_width_change
  rw [if_neg (by simp [hud]), ho, hl]
  change (if w ≤ 0 then st else _) = _
  rw [if_neg (not_le.2 hw)]
  rfl

lemma on_width_change_eq_nolock (st : AppState) (o : Buffer) (w : ℚ)
    (ho : st.original = some o) (hud : st.updating_dimensions = false)
    (hl : st.lock_aspect = false) (hw : 0 < w) :
    on_width_change st (some w) =
      { st with width_inches := w,
                scale_factor := round2 ((w * (st.dpi : ℚ)) / (o.width : ℚ)),
                scale_label := round2 ((w * (st.dpi : ℚ)) / (o.width : ℚ)) } := by
  unfold on_width_change
  rw [if_neg (by simp [hud]), ho, hl]
  change (if w ≤ 0 then st else _) = _
  rw [if_neg (not_le.2 hw)]
  rfl

lemma on_height_change_eq_lock (st : AppState) (o : Buffer) (h : ℚ)
    (ho : st.original = some o) (hud : st.updating_dimensions = false)
    (hl : st.lock_aspect = true) (hh : 0 < h) :
    on_height_change st (some h) =
      { st with height_inches := h,
                width_inches := round2 (h * ((o.width : ℚ) / (o.height : ℚ))),
                scale_factor := round2 ((h * (st.dpi : ℚ)) / (o.height : ℚ)),
                scale_label := round2 ((h * (st.dpi : ℚ)) / (o.height : ℚ)) } := by
  unfold on_height_change
  rw [if_neg (by simp [hud]), ho, hl]
  change (if h ≤ 0 then st else _) = _
  rw [if_neg (not_le.2 hh)]
  rfl

lemma on_height_change_eq_nolock (st : AppState) (o : Buffer) (h : ℚ)
    (ho : st.original = some o) (hud : st.updating_dimensions = false)
    (hl : st.lock_aspect = false) (hh : 0 < h) :
    on_height_change st (some h) =
      { st with height_inches := h,
                scale_factor := round2 ((h * (st.dpi : ℚ)) / (o.height : ℚ)),
                scale_label := round2 ((h * (st.dpi : ℚ)) / (o.height : ℚ)) } := by
  unfold on_height_change
  rw [if_neg (by simp [hud]), ho, hl]
  change (if h ≤ 0 then st else _) = _
  rw [if_neg (not_le.2 hh)]
  rfl

lemma on_width_change_scale_factor (st : AppState) (o : Buffer) (w : ℚ)
    (ho : st.original = some o) (hud : st.updating_dimensions = false)
    (hw : 0 < w) :
    (on_width_change st (some w)).scale_factor =
      round2 ((w * (st.dpi : ℚ)) / (o.width : ℚ)) := by
  cases hl : st.lock_aspect with
  | true => rw [on_width_change_eq_lock st o w ho hud hl hw]
  | false => rw [on_width_change_eq_nolock st o w ho hud hl hw]

lemma round2_eq_of_floor (q : ℚ) (n : ℤ)
    (h1 : (n : ℚ) ≤ 100 * q) (h2 : 100 * q - (n : ℚ) < 1 / 2) :
    round2 q = (n : ℚ) / 100 := by
  unfold round2 roundHalfEven
  have hf : ⌊100 * q⌋ = n := by
    rw [Int.floor_eq_iff]
    exact ⟨h1, by linarith⟩
  rw [hf, if_pos h2]

lemma round2_eq_of_floor_up (q : ℚ) (n : ℤ)
    (h1 : (n : ℚ) ≤ 100 * q) (h2 : 1 / 2 < 100 * q - (n : ℚ))
    (h3 : 100 * q < (n : ℚ) + 1) :
    round2 q = ((n : ℚ) + 1) / 100 := by
  unfold round2 roundHalfEven
  have hf : ⌊100 * q⌋ = n := by
    rw [Int.floor_eq_iff]
    exact ⟨h1, by linarith⟩
  rw [hf, if_neg (by linarith), if_pos h2]
  push_cast
  ring

/-- C6 counterexample: with one undo step recorded, moving the threshold
slider (which writes the bound variable and runs `on_threshold_change`)
neither regenerates the processed buffer nor clears the history stack: both
are exactly what they were, while the threshold value did change. -/
theorem C6_threshold_change_counterexample :
    stHist.edit_history.length = 1 ∧
    (threshold_slider_change stHist 250).white_threshold = 250 ∧
    (threshold_slider_change stHist 250).edit_history = stHist.edit_history ∧
    (threshold_slider_change stHist 250).processed = stHist.processed := by
  exact ⟨rfl, rfl, rfl, rfl⟩

/-- C6 (amended): with an image loaded and no reprocess in flight, only the
background-removal toggle (whose handler calls `update_preview`) regenerates
the processed buffer from the state via `process_image` and clears the
history; a threshold-slider change, a method change, and a scale-entry
change all leave the processed buffer and the history stack untouched. -/
theorem C6_reprocess_only_on_toggle (backend : Buffer → Option Buffer)
    (resample : Buffer → ℕ → ℕ → Buffer) (aiAvailable : Bool)
    (st : AppState) (o : Buffer) (v : Bool) (tv : ℕ) (m : Method) (inp : Option ℚ)
    (ho : st.original = some o) (hproc : st.processing = false) :
    (∃ pr, process_image backend resample aiAvailable
        { st with remove_background := v } = some pr ∧
      (on_bg_toggle backend resample aiAvailable st v).processed = some pr.1 ∧
      (on_bg_toggle backend resample aiAvailable st v).edit_history = []) ∧
    ((threshold_slider_change st tv).processed = st.processed ∧
      (threshold_slider_change st tv).edit_history = st.edit_history) ∧
    ((on_method_change st m).processed = st.processed ∧
      (on_method_change st m).edit_history = st.edit_history) ∧
    ((on_scale_entry st inp).processed = st.processed ∧
      (on_scale_entry st inp).edit_history = st.edit_history) := by
  refine ⟨?_, ⟨rfl, rfl⟩, ⟨rfl, rfl⟩, ?_⟩
  · have ho2 : ({ st with remove_background := v } : AppState).original = some o := ho
    have hpr : ∃ pr, process_image backend resample aiAvailable
        { st with remove_background := v } = some pr := by
      unfold process_image
      rw [ho2]
      exact ⟨_, rfl⟩
    obtain ⟨pr, hpr⟩ := hpr
    have hno : ¬ ({ st with remove_background := v } : AppState).original.isNone = true := by
      rw [ho2]
      simp
    have hnp : ¬ ({ st with remove_background := v } : AppState).processing = true := by
      simp [hproc]
    refine ⟨pr, hpr, ?_, ?_⟩
    · unfold on_bg_toggle update_preview
      rw [if_neg hno, if_neg hnp, hpr]
    · unfold on_bg_toggle update_preview
      rw [if_neg hno, if_neg hnp, hpr]
  · cases inp with
    | none => exact ⟨rfl, rfl⟩
    | some v2 =>
      simp only [on_scale_entry]
      exact ⟨(update_dimensions_preserves _).1, (update_dimensions_preserves _).2.1⟩

/-- C6 witness: on the concrete state with one undo step, the threshold
slider leaves the processed buffer alone, while the toggle clears history. -/
theorem C6_reprocess_only_on_toggle_witness :
    stHist.original = some twoPix ∧ stHist.processing = false ∧
    (threshold_slider_change stHist 250).processed = stHist.processed ∧
    (on_bg_toggle (fun _ => none) (fun b _ _ => b) false stHist true).edit_history = [] := by
  have h := C6_reprocess_only_on_toggle (fun _ => none) (fun b _ _ => b) false
    stHist twoPix true 250 Method.ai none rfl rfl
  obtain ⟨⟨pr, hpr, hp2, hh⟩, hthr, _, _⟩ := h
  exact ⟨rfl, rfl, hthr.1, hh⟩

/-- C8: after each dimension setter succeeds, the state satisfies the
documented formulas for the current dpi and the fixed original pixel size:
`fromWidth` stores the width, sets scaleFactor to round(w·dpi/origW, 2) and,
when the aspect is locked, heightInches to round(w·origH/origW, 2) — leaving
heightInches untouched when it is not; `fromHeight` is symmetric; `fromScale`
(the direct entry in its accepted domain) stores the scale and derives both
inch sizes as round(orig·scale/dpi, 2); dpi itself is never modified. -/
theorem C8_setter_consistency (st : AppState) (o : Buffer) (w h s : ℚ)
    (ho : st.original = some o)
    (hud : st.updating_dimensions = false) :
    (0 < w →
      (on_width_change st (some w)).width_inches = w ∧
      (on_width_change st (some w)).scale_factor =
        round2 ((w * (st.dpi : ℚ)) / (o.width : ℚ)) ∧
      (on_width_change st (some w)).dpi = st.dpi ∧
      (st.lock_aspect = true → (on_width_change st (some w)).height_inches =
        round2 ((w * (o.height : ℚ)) / (o.width : ℚ))) ∧
      (st.lock_aspect = false → (on_width_change st (some w)).height_inches =
        st.height_inches)) ∧
    (0 < h →
      (on_height_change st (some h)).height_inches = h ∧
      (on_height_change st (some h)).scale_factor =
        round2 ((h * (st.dpi : ℚ)) / (o.height : ℚ)) ∧
      (on_height_change st (some h)).dpi = st.dpi ∧
      (st.lock_aspect = true → (on_height_change st (some h)).width_inches =
        round2 ((h * (o.width : ℚ)) / (o.height : ℚ))) ∧
      (st.lock_aspect = false → (on_height_change st (some h)).width_inches =
        st.width_inches)) ∧
    (1 / 10 ≤ s → s ≤ 20 →
      (on_scale_entry st (some s)).scale_factor = s ∧
      (on_scale_entry st (some s)).width_inches =
        round2 (((o.width : ℚ) * s) / (st.dpi : ℚ)) ∧
      (on_scale_entry st (some s)).height_inches =
        round2 (((o.height : ℚ) * s) / (st.dpi : ℚ)) ∧
      (on_scale_entry st (some s)).dpi = st.dpi) := by
  refine ⟨?_, ?_, ?_⟩
  · intro hw
    cases hl : st.lock_aspect with
    | false =>
      rw [on_width_change_eq_nolock st o w ho hud hl hw]
      refine ⟨rfl, rfl, rfl, ?_, ?_⟩
      · intro hc
        exact absurd hc (by simp)
      · intro _
        rfl
    | true =>
      rw [on_width_change_eq_lock st o w ho hud hl hw]
      refine ⟨rfl, rfl, rfl, ?_, ?_⟩
      · intro _
        show round2 (w * ((o.height : ℚ) / (o.width : ℚ))) =
          round2 ((w * (o.height : ℚ)) / (o.width : ℚ))
        rw [mul_div_assoc]
      · intro hc
        exact absurd hc (by simp)
  · intro hh
    cases hl : st.lock_aspect with
    | false =>
      rw [on_height_change_eq_nolock st o h ho hud hl hh]
      refine ⟨rfl, rfl, rfl, ?_, ?_⟩
      · intro hc
        exact absurd hc (by simp)
      · intro _
        rfl
    | true =>
      rw [on_height_change_eq_lock st o h ho hud hl hh]
      refine ⟨rfl, rfl, rfl, ?_, ?_⟩
      · intro _
        show round2 (h * ((o.width : ℚ) / (o.height : ℚ))) =
          round2 ((h * (o.width : ℚ)) / (o.height : ℚ))
        rw [mul_div_assoc]
      · intro hc
        exact absurd hc (by simp)
  · intro hs1 hs2
    rw [on_scale_entry_eq st o s ho hud (not_lt.2 hs1) (not_lt.2 hs2)]
    exact ⟨rfl, rfl, rfl, rfl⟩

/-- C8 witness: on the loaded 600x300 image at 300 dpi, setting width 2.0
succeeds, stores it, and keeps dpi. -/
theorem C8_setter_consistency_witness :
    (0 : ℚ) < 2 ∧
    (on_width_change stDim (some 2)).width_inches = 2 ∧
    (on_width_change stDim (some 2)).dpi = stDim.dpi :=
  ⟨by norm_num,
   ((C8_setter_consistency stDim
       { width := 600, height := 300, mode := Mode.RGB, pix := fun _ _ => ⟨0, 0, 0, 255⟩ }
       2 1 1 rfl rfl).1 (by norm_num)).1,
   ((C8_setter_consistency stDim
       { width := 600, height := 300, mode := Mode.RGB, pix := fun _ _ => ⟨0, 0, 0, 255⟩ }
       2 1 1 rfl rfl).1 (by norm_num)).2.2.1⟩

/-- C9 counterexample: with an original only 7 pixels wide at 300 dpi,
setting scale 1.0 and feeding the resulting width (0.02 in) back through the
width setter yields a scale factor of 0.86, which is not 1.0 within
2-decimal rounding: the rounding error in the inches is amplified by
dpi/origW. -/
theorem C9_roundtrip_counterexample :
    (on_width_change (on_scale_entry stNarrow (some 1))
        (some ((on_scale_entry stNarrow (some 1)).width_inches))).scale_factor = 43 / 50 ∧
    ¬ (|(43 : ℚ) / 50 - 1| ≤ 1 / 100) := by
  constructor
  · have ho : stNarrow.original =
        some ⟨7, 5, Mode.RGB, fun _ _ => ⟨0, 0, 0, 255⟩⟩ := rfl
    have h1 := on_scale_entry_eq stNarrow
      ⟨7, 5, Mode.RGB, fun _ _ => ⟨0, 0, 0, 255⟩⟩
      1 ho rfl (by norm_num) (by norm_num)
    have hw1 : (on_scale_entry stNarrow (some 1)).width_inches = 2 / 100 := by
      rw [h1]
      show round2 ((((7 : ℕ) : ℚ) * 1) / ((300 : ℕ) : ℚ)) = 2 / 100
      rw [round2_eq_of_floor _ 2 (by push_cast; norm_num) (by push_cast; norm_num)]
      norm_num
    have hst1o : (on_scale_entry stNarrow (some 1)).original =
        some ⟨7, 5, Mode.RGB, fun _ _ => ⟨0, 0, 0, 255⟩⟩ := by
      rw [h1]
      exact ho
    have hst1u : (on_scale_entry stNarrow (some 1)).updating_dimensions = false := by
      rw [h1]
      rfl
    have hst1d : (on_scale_entry stNarrow (some 1)).dpi = 300 := by
      rw [h1]
      rfl
    have hsf := on_width_change_scale_factor (on_scale_entry stNarrow (some 1))
      ⟨7, 5, Mode.RGB, fun _ _ => ⟨0, 0, 0, 255⟩⟩
      (2 / 100) hst1o hst1u (by norm_num)
    rw [hw1, hsf, hst1d]
    show round2 (((2 : ℚ) / 100 * ((300 : ℕ) : ℚ)) / ((7 : ℕ) : ℚ)) = 43 / 50
    rw [round2_eq_of_floor_up _ 85 (by push_cast; norm_num) (by push_cast; norm_num)
      (by push_cast; norm_num)]
    norm_num
  · rw [show (43 : ℚ) / 50 - 1 = -(7 / 50) by norm_num, abs_neg,
      abs_of_nonneg (by norm_num : (0 : ℚ) ≤ 7 / 50)]
    norm_num

/-- C9 (amended): the round-trip recovers the scale within 0.01 (2-decimal
rounding) whenever the original is at least one inch wide at the current
dpi (dpi ≤ origW); in general the error of the reported scale factor is
bounded by (1/200)·(dpi/origW) + 1/200, which the 7-pixel counterexample
shows is tight in spirit. -/
theorem C9_roundtrip_within_bound (st : AppState) (o : Buffer) (s : ℚ)
    (ho : st.original = some o)
    (hud : st.updating_dimensions = false)
    (how : 0 < (o.width : ℚ))
    (hdpi : 0 < (st.dpi : ℚ))
    (hwide : (st.dpi : ℚ) ≤ (o.width : ℚ))
    (hs1 : 1 / 10 ≤ s) (hs2 : s ≤ 20) :
    |(on_width_change (on_scale_entry st (some s))
        (some ((on_scale_entry st (some s)).width_inches))).scale_factor - s| ≤ 1 / 100 := by
  have h1 := on_scale_entry_eq st o s ho hud (not_lt.2 hs1) (not_lt.2 hs2)
  have hw1 : (on_scale_entry st (some s)).width_inches =
      round2 (((o.width : ℚ) * s) / (st.dpi : ℚ)) := by rw [h1]
  have hsf1 : (on_scale_entry st (some s)).scale_factor = s := by rw [h1]
  have hst1o : (on_scale_entry st (some s)).original = some o := by
    rw [h1]
    exact ho
  have hst1u : (on_scale_entry st (some s)).updating_dimensions = false := by
    rw [h1]
    exact hud
  have hst1d : (on_scale_entry st (some s)).dpi = st.dpi := by rw [h1]
  rw [hw1]
  by_cases hpos : 0 < round2 (((o.width : ℚ) * s) / (st.dpi : ℚ))
  · rw [on_width_change_scale_factor (on_scale_entry st (some s)) o _ hst1o hst1u hpos,
      hst1d]
    have hb1 := round2_sub_le (((o.width : ℚ) * s) / (st.dpi : ℚ))
    have hdne : (st.dpi : ℚ) ≠ 0 := ne_of_gt hdpi
    have hwne : (o.width : ℚ) ≠ 0 := ne_of_gt how
    have hy : (round2 (((o.width : ℚ) * s) / (st.dpi : ℚ)) * (st.dpi : ℚ)) /
          (o.width : ℚ) - s =
        (round2 (((o.width : ℚ) * s) / (st.dpi : ℚ)) -
          ((o.width : ℚ) * s) / (st.dpi : ℚ)) * ((st.dpi : ℚ) / (o.width : ℚ)) := by
      field_simp
    have hfracnn : 0 ≤ (st.dpi : ℚ) / (o.width : ℚ) := div_nonneg hdpi.le how.le
    have hfrac : (st.dpi : ℚ) / (o.width : ℚ) ≤ 1 := (div_le_one how).2 hwide
    have hb2 : |(round2 (((o.width : ℚ) * s) / (st.dpi : ℚ)) * (st.dpi : ℚ)) /
        (o.width : ℚ) - s| ≤ 1 / 200 := by
      rw [hy, abs_mul, abs_of_nonneg hfracnn]
      have hmul := mul_le_mul hb1 hfrac hfracnn (by norm_num : (0 : ℚ) ≤ 1 / 200)
      linarith
    have hb3 := round2_sub_le ((round2 (((o.width : ℚ) * s) / (st.dpi : ℚ)) *
      (st.dpi : ℚ)) / (o.width : ℚ))
    calc |round2 ((round2 (((o.width : ℚ) * s) / (st.dpi : ℚ)) * (st.dpi : ℚ)) /
            (o.width : ℚ)) - s|
        ≤ |round2 ((round2 (((o.width : ℚ) * s) / (st.dpi : ℚ)) * (st.dpi : ℚ)) /
              (o.width : ℚ)) - (round2 (((o.width : ℚ) * s) / (st.dpi : ℚ)) *
              (st.dpi : ℚ)) / (o.width : ℚ)| +
          |(round2 (((o.width : ℚ) * s) / (st.dpi : ℚ)) * (st.dpi : ℚ)) /
              (o.width : ℚ) - s| := abs_sub_le _ _ _
      _ ≤ 1 / 200 + 1 / 200 := add_le_add hb3 hb2
      _ = 1 / 100 := by norm_num
  · rw [on_width_change_nonpos (on_scale_entry st (some s)) _ (le_of_not_lt hpos),
      hsf1]
    rw [sub_self, abs_zero]
    norm_num

/-- C9 witness: on the 600-pixel-wide image at 300 dpi (dpi ≤ origW), the
scale 1.0 round-trip stays within 0.01. -/
theorem C9_roundtrip_within_bound_witness :
    (((300 : ℕ) : ℚ)) ≤ ((600 : ℕ) : ℚ) ∧
    |(on_width_change (on_scale_entry stDim (some 1))
        (some ((on_scale_entry stDim (some 1)).width_inches))).scale_factor - 1| ≤ 1 / 100 :=
  ⟨by norm_num,
   C9_roundtrip_within_bound stDim
     { width := 600, height := 300, mode := Mode.RGB, pix := fun _ _ => ⟨0, 0, 0, 255⟩ }
     1 rfl rfl (by norm_num) (by norm_num [stDim, baseState])
     (by norm_num [stDim, baseState]) (by norm_num) (by norm_num)⟩

/-- C1: on an RGBA buffer, for an in-bounds seed with nonzero alpha and any
tolerance in [0,255], the flood fill zeroes the alpha of exactly the
4-connected region reachable from the seed through pixels whose channels
are each within the tolerance of the seed color (already-transparent and
non-matching pixels bound the region and are untouched), every changed
pixel keeps its RGB, every other pixel is unchanged, and the reported count
equals the number of pixels whose alpha changed. -/
theorem C1_flood_fill_region (st : AppState) (img : Buffer) (sx sy : ℤ)
    (hp : st.processed = some img)
    (hm : img.mode = Mode.RGBA)
    (hb : img.inBounds (sx, sy))
    (ha : (img.pix sx sy).a ≠ 0)
    (_htol : st.magic_wand_tolerance ≤ 255) :
    ∃ out : Buffer,
      (flood_fill_transparent st sx sy).processed = some out ∧
      (∀ p, InRegion img st.magic_wand_tolerance (img.pix sx sy) (sx, sy) p →
        out.pix p.1 p.2 =
          ⟨(img.pix p.1 p.2).r, (img.pix p.1 p.2).g, (img.pix p.1 p.2).b, 0⟩) ∧
      (∀ p, ¬ InRegion img st.magic_wand_tolerance (img.pix sx sy) (sx, sy) p →
        out.pix p.1 p.2 = img.pix p.1 p.2) ∧
      (flood_fill_transparent st sx sy).status =
        Status.removed (((allCoords img).filter
          (fun p => (out.pix p.1 p.2).a ≠ (img.pix p.1 p.2).a)).card) := by
  have hcv : img.convertRGBA = img := convertRGBA_of_rgba img hm
  have hcond : ¬ (img.convertRGBA.mode = Mode.RGBA ∧
      (img.convertRGBA.pix sx sy).a = 0) := by
    rw [hcv]
    exact fun hc => ha hc.2
  have heq : flood_fill_transparent st sx sy =
      { st with
        processed := some (floodFill img.convertRGBA (sx, sy)
          st.magic_wand_tolerance).img,
        edit_history := push_snapshot st.edit_history img,
        status := Status.removed (floodFill img.convertRGBA (sx, sy)
          st.magic_wand_tolerance).changed } := by
    simp only [flood_fill_transparent, hp, save_edit_state]
    rw [if_neg hcond]
  rw [hcv] at heq
  obtain ⟨hreg, hnreg, hcount⟩ := floodFill_spec img (sx, sy) st.magic_wand_tolerance hb
  refine ⟨(floodFill img (sx, sy) st.magic_wand_tolerance).img, ?_, ?_, ?_, ?_⟩
  · rw [heq]
  · intro p hp2
    exact hreg p hp2
  · intro p hp2
    exact hnreg p hp2
  · rw [heq, hcount]

/-- C1 witness: on the concrete two-pixel state, the seed (0,0) is in
bounds and opaque, and the full region characterization holds. -/
theorem C1_flood_fill_region_witness :
    twoPix.inBounds (0, 0) ∧ (twoPix.pix 0 0).a ≠ 0 ∧
    (∃ out : Buffer,
      (flood_fill_transparent stFF 0 0).processed = some out ∧
      (∀ p, InRegion twoPix stFF.magic_wand_tolerance (twoPix.pix 0 0) (0, 0) p →
        out.pix p.1 p.2 =
          ⟨(twoPix.pix p.1 p.2).r, (twoPix.pix p.1 p.2).g, (twoPix.pix p.1 p.2).b, 0⟩) ∧
      (∀ p, ¬ InRegion twoPix stFF.magic_wand_tolerance (twoPix.pix 0 0) (0, 0) p →
        out.pix p.1 p.2 = twoPix.pix p.1 p.2) ∧
      (flood_fill_transparent stFF 0 0).status =
        Status.removed (((allCoords twoPix).filter
          (fun p => (out.pix p.1 p.2).a ≠ (twoPix.pix p.1 p.2).a)).card)) :=
  ⟨by decide, by decide,
   C1_flood_fill_region stFF twoPix 0 0 rfl rfl (by decide) (by decide) (by decide)⟩

/-- C10: although the four neighbors of a matching pixel are enqueued with
no bounds check, no out-of-bounds pixel access ever occurs for an in-bounds
seed: every coordinate at which the fill reads or writes a pixel (the
recorded access trace, which includes the target-color read at the seed) is
inside the buffer, because every dequeued coordinate is tested against the
visited set and the bounds before any pixel access and discarded if it
fails. -/
theorem C10_no_oob_access (img : Buffer) (seed : ℤ × ℤ) (tolerance : ℕ)
    (hs : img.inBounds seed) :
    ∀ p ∈ (floodFill img seed tolerance).accesses, img.inBounds p :=
  floodFill_accesses img seed tolerance hs

/-- C10 witness: on the concrete two-pixel buffer every access of the fill
from (0,0) is in bounds. -/
theorem C10_no_oob_access_witness :
    twoPix.inBounds (0, 0) ∧
    ∀ p ∈ (floodFill twoPix (0, 0) 32).accesses, twoPix.inBounds p :=
  ⟨by decide, C10_no_oob_access twoPix (0, 0) 32 (by decide)⟩
